import Mathlib

/-!
# Verification of the `mcp-tools-doris` repository

Shallow embedding of the repository's pure helpers (`src/utils/helpers.js`),
the Doris database client state machine (`src/lib/client.js`) and the tool
adapter entry point (`dorisQuery`).  Strings are modelled as `List Char`;
JavaScript values that may appear in a row record are modelled by `JSVal`.
-/

namespace Doris

/-- A JavaScript value that can occur as a cell of a row record:
a string, an integer number, a boolean, `null` or `undefined`. -/
inductive JSVal where
  | str (s : List Char)
  | num (n : Int)
  | boolean (b : Bool)
  | null
  | undefined
  deriving DecidableEq, Repr

/-- JavaScript `String(v)` conversion for `JSVal`. -/
def jsString : JSVal → List Char
  | .str s => s
  | .num n => (toString n).data
  | .boolean true => "true".data
  | .boolean false => "false".data
  | .null => "null".data
  | .undefined => "undefined".data

/-- JavaScript truthiness: the values replaced by `''` in `item[header] || ''`. -/
def jsFalsy : JSVal → Bool
  | .str s => s.isEmpty
  | .num n => n = 0
  | .boolean b => !b
  | .null => true
  | .undefined => true

/-- The cell string computed by `exportToCSV` for a value `v`:
`let cell = item[header] || ''; ...; cell = String(cell)`
(the explicit null/undefined check in the source is subsumed by `|| ''`). -/
def cellString (v : JSVal) : List Char :=
  if jsFalsy v then [] else jsString v

/-- `cell.includes(delimiter) || cell.includes('"') || cell.includes('\n')` —
the condition under which `exportToCSV` wraps a cell in double quotes. -/
def needsQuote (d : Char) (cs : List Char) : Bool :=
  cs.contains d || cs.contains '"' || cs.contains '\n'

/-- `cell.replace(/"/g, '""')`: double every double-quote character. -/
def escapeQuotes : List Char → List Char
  | [] => []
  | c :: cs => if c = '"' then '"' :: '"' :: escapeQuotes cs else c :: escapeQuotes cs

/-- One emitted cell of `exportToCSV`: quoted (with doubled inner quotes)
iff it contains the delimiter, a quote or a newline. -/
def encodeCell (d : Char) (cs : List Char) : List Char :=
  if needsQuote d cs then '"' :: (escapeQuotes cs ++ ['"']) else cs

/-- `Array.prototype.join(delimiter)` for a single-character delimiter. -/
def joinD (d : Char) : List (List Char) → List Char
  | [] => []
  | [c] => c
  | c :: cs => c ++ d :: joinD d (cs)

/-- `exportToCSV(data, delimiter)` from `src/utils/helpers.js`.
A row record is modelled as the list of its values in the order of
`headers` (= `Object.keys(data[0])`, the keys of the first record, which
every record is assumed to share).  Returns `''` for empty data; otherwise
the unquoted header line followed by one encoded line per row, each line
terminated by `'\n'`. -/
def exportToCSV (d : Char) (headers : List (List Char)) (rows : List (List JSVal)) :
    List Char :=
  if rows.isEmpty then []
  else
    joinD d headers ++ '\n' ::
      (rows.map fun r => joinD d (r.map fun v => encodeCell d (cellString v)) ++ ['\n']).flatten

/-- JavaScript `String.prototype.split(sep)` for a one-character separator:
splits into the (possibly empty) segments between occurrences of `sep`. -/
def splitOnChar (sep : Char) : List Char → List (List Char)
  | [] => [[]]
  | c :: rest =>
    match splitOnChar sep rest with
    | [] => [[]]
    | h :: t => if c = sep then [] :: h :: t else (c :: h) :: t

/-- `parseCSV(csvString, delimiter)` from `src/utils/helpers.js`:
`csvString.split('\n').map(line => line.split(delimiter))` — a naive
splitter that performs no quote handling at all. -/
def parseCSV (d : Char) (cs : List Char) : List (List (List Char)) :=
  (splitOnChar '\n' cs).map (splitOnChar d)

/-- Reference CSV splitter respecting double-quoted segments and
doubled-quote escaping (the splitter named by the round-trip property).
`inQ` is the inside-a-quoted-segment flag, `cell` the current cell
accumulator and `row` the cells of the current row. -/
def refSplitAux (d : Char) : Bool → List Char → List Char → List (List Char) →
    List (List (List Char))
  | false, [], cell, row =>
    if cell.isEmpty && row.isEmpty then [] else [row ++ [cell]]
  | false, c :: cs, cell, row =>
    if c = '"' && cell.isEmpty then refSplitAux d true cs cell row
    else if c = d then refSplitAux d false cs [] (row ++ [cell])
    else if c = '\n' then (row ++ [cell]) :: refSplitAux d false cs [] []
    else refSplitAux d false cs (cell ++ [c]) row
  | true, [], cell, row => [row ++ [cell]]
  | true, c :: cs, cell, row =>
    if c = '"' then
      match cs with
      | [] => refSplitAux d false [] cell row
      | c2 :: cs2 =>
        if c2 = '"' then refSplitAux d true cs2 (cell ++ ['"']) row
        else refSplitAux d false (c2 :: cs2) cell row
    else refSplitAux d true cs (cell ++ [c]) row

/-- Split a whole CSV text into rows of cells, respecting quoting. -/
def refSplit (d : Char) (cs : List Char) : List (List (List Char)) :=
  refSplitAux d false cs [] []

/-! ## `parseArgs` (`src/utils/helpers.js`) -/

/-- A value bound in the object returned by `parseArgs`:
either a string token or the boolean `true`. -/
inductive ArgVal where
  | str (s : List Char)
  | boolTrue
  deriving DecidableEq, Repr

/-- JavaScript object property assignment `params[k] = v` on an object
modelled as an insertion-ordered association list: overwrite in place
if the key exists, otherwise append. -/
def setKey (m : List (List Char × ArgVal)) (k : List Char) (v : ArgVal) :
    List (List Char × ArgVal) :=
  match m with
  | [] => [(k, v)]
  | (k', v') :: rest => if k' = k then (k, v) :: rest else (k', v') :: setKey rest k v

/-- One iteration of the `args.forEach` body of `parseArgs`: the state is
the params object together with `currentKey` (`none` = `null`). -/
def parseArgsStep (acc : List (List Char × ArgVal) × Option (List Char))
    (arg : List Char) : List (List Char × ArgVal) × Option (List Char) :=
  if arg.take 2 = ['-', '-'] then
    let parts := splitOnChar '=' (arg.drop 2)
    let key := parts.headD []
    if parts.length > 1 then (setKey acc.1 key (.str (parts.getD 1 [])), none)
    else (setKey acc.1 key .boolTrue, some key)
  else if arg.take 1 = ['-'] then
    (setKey acc.1 (arg.drop 1) .boolTrue, some (arg.drop 1))
  else
    match acc.2 with
    | some k =>
      -- `else if (currentKey)`: an empty-string key is falsy in JavaScript
      if k.isEmpty then acc else (setKey acc.1 k (.str arg), none)
    | none => acc

/-- `parseArgs(args)` from `src/utils/helpers.js`: fold the step over the
argument vector starting from an empty object and a `null` current key. -/
def parseArgs (args : List (List Char)) : List (List Char × ArgVal) :=
  (args.foldl parseArgsStep ([], none)).1

/-! ## `formatBytes` (`src/utils/helpers.js`)

`Math.floor(Math.log(bytes) / Math.log(1024))` is modelled exactly as the
floor of the base-1024 logarithm (for byte counts below `1024 ^ 10`), and
`toFixed` / `parseFloat` as exact decimal half-up rounding with trailing
zeros trimmed. -/

/-- Exact `Math.floor(Math.log n / Math.log 1024)` for `1 ≤ n < 1024 ^ 10`. -/
def log1024 (n : Nat) : Nat :=
  if 1024 ^ 9 ≤ n then 9
  else if 1024 ^ 8 ≤ n then 8
  else if 1024 ^ 7 ≤ n then 7
  else if 1024 ^ 6 ≤ n then 6
  else if 1024 ^ 5 ≤ n then 5
  else if 1024 ^ 4 ≤ n then 4
  else if 1024 ^ 3 ≤ n then 3
  else if 1024 ^ 2 ≤ n then 2
  else if 1024 ≤ n then 1
  else 0

/-- Round `num / den` to the nearest integer, halves up (`den > 0`). -/
def roundHalfUp (num den : Nat) : Nat := (2 * num + den) / (2 * den)

/-- Drop trailing `'0'` characters. -/
def stripTrailingZeros (s : List Char) : List Char :=
  (s.reverse.dropWhile (· = '0')).reverse

/-- Render `n / 10 ^ dm` as `parseFloat((..).toFixed(dm))` would print it:
integer part, then the `dm` fractional digits with trailing zeros trimmed. -/
def renderFixed (n dm : Nat) : List Char :=
  let ip := n / 10 ^ dm
  let fracDigits := stripTrailingZeros
    (List.replicate (dm - (toString (n % 10 ^ dm)).length) '0' ++ (toString (n % 10 ^ dm)).data)
  if fracDigits.isEmpty then (toString ip).data
  else (toString ip).data ++ '.' :: fracDigits

/-- The unit names used by `formatBytes`. -/
def sizes : List (List Char) :=
  ["Bytes".data, "KB".data, "MB".data, "GB".data, "TB".data,
   "PB".data, "EB".data, "ZB".data, "YB".data]

/-- `formatBytes(bytes, decimals)` from `src/utils/helpers.js`.
`decimals` is clamped below at `0`; an index beyond the unit table yields
the JavaScript string `"undefined"`. -/
def formatBytes (bytes : Nat) (decimals : Int := 2) : List Char :=
  if bytes = 0 then "0 Bytes".data
  else
    let dm := decimals.toNat
    let i := log1024 bytes
    renderFixed (roundHalfUp (bytes * 10 ^ dm) (1024 ^ i)) dm ++
      ' ' :: (sizes.getD i "undefined".data)

/-! ## The Doris database client (`src/lib/client.js`)

The client holds `this.connection` (a driver connection handle or `null`)
and `this.isConnected`.  Driver interactions are oracles passed in as
arguments: `drv` is the outcome `mysql.createConnection` would produce
(a fresh handle or a driver error message), `exec` the outcome of
`connection.execute` on a given handle.  Every operation returns the new
client state, a result (`Except` models `throw`), and the trace of driver
events it performed. -/

/-- An error thrown by the embedded JavaScript code. -/
inductive JsError where
  | driver (msg : List Char)
  | nullAccess
  | validation (msg : List Char)
  deriving DecidableEq, Repr

/-- Driver-level events, recorded so that theorems can state which SQL
operations an API call performed. -/
inductive DbEvent where
  | connectAttempt
  | execute (sql : List Char)
  | rawQuery (sql : List Char)
  | close
  deriving DecidableEq, Repr

/-- The mutable fields of a `DorisClient`. -/
structure ClientState where
  connection : Option Nat
  isConnected : Bool
  deriving DecidableEq, Repr

/-- A client as built by `new DorisClient(config)`. -/
def freshClient : ClientState := ⟨none, false⟩

/-- Result of one client operation: new state, result-or-error, event trace. -/
structure OpResult (α : Type) where
  state : ClientState
  result : Except JsError α
  trace : List DbEvent
  deriving Repr

/-- `DorisClient.connect`: one `mysql.createConnection` attempt.  On success
the handle is stored and `isConnected` set; on failure `isConnected` is set
to `false` (`this.connection` keeps its previous value) and the driver
error is rethrown unchanged. -/
def connect (drv : Except (List Char) Nat) (s : ClientState) : OpResult Bool :=
  match drv with
  | .ok c => ⟨⟨some c, true⟩, .ok true, [.connectAttempt]⟩
  | .error e => ⟨⟨s.connection, false⟩, .error (.driver e), [.connectAttempt]⟩

/-- `DorisClient.disconnect`: `if (this.connection) { await end(); ... }`.
The driver's `end()` on a live connection is modelled as succeeding. -/
def disconnect (s : ClientState) : OpResult Unit :=
  match s.connection with
  | some _ => ⟨⟨none, false⟩, .ok (), [.close]⟩
  | none => ⟨s, .ok (), []⟩

/-- `DorisClient._ensureConnected`: connect only when `isConnected` is false. -/
def ensureConnected (drv : Except (List Char) Nat) (s : ClientState) : OpResult Unit :=
  if s.isConnected then ⟨s, .ok (), []⟩
  else
    match connect drv s with
    | ⟨s', .ok _, t⟩ => ⟨s', .ok (), t⟩
    | ⟨s', .error e, t⟩ => ⟨s', .error e, t⟩

/-- A query result `{rows, fields}`. -/
structure QueryResult where
  rows : List (List JSVal)
  fields : List (List Char)
  deriving Repr

/-- `DorisClient.query(sql)`: ensure a connection, then
`this.connection.execute(sql, params)`.  Accessing `execute` on a `null`
connection is the JavaScript null-access `TypeError`. -/
def query (drv : Except (List Char) Nat)
    (exec : Nat → Except (List Char) (List (List JSVal) × List (List Char)))
    (sql : List Char) (s : ClientState) : OpResult QueryResult :=
  match ensureConnected drv s with
  | ⟨s1, .error e, t⟩ => ⟨s1, .error e, t⟩
  | ⟨s1, .ok _, t⟩ =>
    match s1.connection with
    | none => ⟨s1, .error .nullAccess, t⟩
    | some c =>
      match exec c with
      | .ok (r, f) => ⟨s1, .ok ⟨r, f⟩, t ++ [.execute sql]⟩
      | .error e => ⟨s1, .error (.driver e), t ++ [.execute sql]⟩

/-- `DorisClient.getTableSchema(database, table)`: `_ensureConnected`, then
`this.query("DESC \`db\`.\`table\`")`; the returned rows are the schema rows. -/
def getTableSchema (drv : Except (List Char) Nat)
    (exec : Nat → Except (List Char) (List (List JSVal) × List (List Char)))
    (database tbl : List Char) (s : ClientState) : OpResult (List (List JSVal)) :=
  match ensureConnected drv s with
  | ⟨s1, .error e, t⟩ => ⟨s1, .error e, t⟩
  | ⟨s1, .ok _, t⟩ =>
    match query drv exec ("DESC `".data ++ database ++ "`.`".data ++ tbl ++ "`".data) s1 with
    | ⟨s2, .ok qr, t2⟩ => ⟨s2, .ok qr.rows, t ++ t2⟩
    | ⟨s2, .error e, t2⟩ => ⟨s2, .error e, t ++ t2⟩

/-- The result object of a successful `bulkImport`. -/
structure BulkResult where
  success : Bool
  rowsAffected : Nat
  deriving DecidableEq, Repr

/-- `DorisClient.bulkImport(database, table, data)`.  `data = none` models an
absent (`undefined`/`null`) argument.  The empty-payload validation check
precedes every driver interaction; otherwise the table schema is fetched
and one multi-row insert is submitted via `this.connection.query`
(outcome oracle `ins`). -/
def bulkImport (drv : Except (List Char) Nat)
    (exec : Nat → Except (List Char) (List (List JSVal) × List (List Char)))
    (ins : Nat → Except (List Char) Nat)
    (database tbl : List Char) (data : Option (List (List JSVal)))
    (s : ClientState) : OpResult BulkResult :=
  if data = none ∨ data = some [] then
    ⟨s, .error (.validation "没有提供数据进行导入".data), []⟩
  else
    match ensureConnected drv s with
    | ⟨s1, .error e, t⟩ => ⟨s1, .error e, t⟩
    | ⟨s1, .ok _, t⟩ =>
      match getTableSchema drv exec database tbl s1 with
      | ⟨s2, .error e, t2⟩ => ⟨s2, .error e, t ++ t2⟩
      | ⟨s2, .ok _, t2⟩ =>
        let sql := "INSERT INTO `".data ++ database ++ "`.`".data ++ tbl ++ "` VALUES".data
        match s2.connection with
        | none => ⟨s2, .error .nullAccess, t ++ t2⟩
        | some c =>
          match ins c with
          | .ok n => ⟨s2, .ok ⟨true, n⟩, t ++ t2 ++ [.rawQuery sql]⟩
          | .error e => ⟨s2, .error (.driver e), t ++ t2 ++ [.rawQuery sql]⟩

/-- States reachable from a fresh client by any finite sequence of
`connect`, `disconnect` and `query` operations, each succeeding or
failing according to its oracles. -/
inductive Reachable : ClientState → Prop where
  | init : Reachable freshClient
  | connectStep (drv : Except (List Char) Nat) {s : ClientState} :
      Reachable s → Reachable (connect drv s).state
  | disconnectStep {s : ClientState} :
      Reachable s → Reachable (disconnect s).state
  | queryStep (drv : Except (List Char) Nat)
      (exec : Nat → Except (List Char) (List (List JSVal) × List (List Char)))
      (sql : List Char) {s : ClientState} :
      Reachable s → Reachable (query drv exec sql s).state

/-- The implicit client invariant: a connected flag implies a live handle. -/
def ClientInv (s : ClientState) : Prop :=
  s.isConnected = true → s.connection ≠ none

/-! ## The tool adapter (`dorisQuery`, repository root tool file) -/

/-- The `{sql, database?}` input of the tool adapter. -/
structure QueryParams where
  sql : List Char
  database : Option (List Char)
  deriving Repr

/-- The uniform structured result of the tool adapter. -/
inductive ToolResult where
  | success (data : List (List JSVal)) (message : List Char)
  | failure (error : List Char) (message : List Char)
  deriving Repr

/-- `error.message` of a thrown `JsError`. -/
def errMessage : JsError → List Char
  | .driver m => m
  | .nullAccess => "Cannot read properties of null".data
  | .validation m => m

/-- The `try` body of `dorisQuery`: load config, build a fresh client
(optionally overriding the database — the override does not influence the
modelled control flow), `connect`, `query(sql)`, `disconnect`, and return
the rows. -/
def dorisQueryBody (configRes : Except (List Char) Unit)
    (drv : Except (List Char) Nat)
    (exec : Nat → Except (List Char) (List (List JSVal) × List (List Char)))
    (params : QueryParams) : Except JsError (List (List JSVal)) :=
  match configRes with
  | .error e => .error (.driver e)
  | .ok _ =>
    match connect drv freshClient with
    | ⟨_, .error e, _⟩ => .error e
    | ⟨s1, .ok _, _⟩ =>
      match query drv exec params.sql s1 with
      | ⟨_, .error e, _⟩ => .error e
      | ⟨s2, .ok qr, _⟩ =>
        match (disconnect s2).result with
        | .error e => .error e
        | .ok _ => .ok qr.rows

/-- `dorisQuery(params)`: the whole body is wrapped in `try/catch`; any
thrown error is converted into `{success:false, error, message}`. -/
def dorisQuery (configRes : Except (List Char) Unit)
    (drv : Except (List Char) Nat)
    (exec : Nat → Except (List Char) (List (List JSVal) × List (List Char)))
    (params : QueryParams) : ToolResult :=
  match dorisQueryBody configRes drv exec params with
  | .ok rows =>
    .success rows ("查询成功，返回 ".data ++ (toString rows.length).data ++ " 条记录".data)
  | .error e =>
    .failure (errMessage e) ("查询失败: ".data ++ errMessage e)

/-! ## Helper lemmas for the client state machine -/

/-- After a successful `connect` the handle is stored and the flag set. -/
theorem connect_ok (c : Nat) (s : ClientState) :
    connect (.ok c) s = ⟨⟨some c, true⟩, .ok true, [.connectAttempt]⟩ := rfl

/-- After a failed `connect` the flag is cleared and the error rethrown. -/
theorem connect_err (e : List Char) (s : ClientState) :
    connect (.error e) s = ⟨⟨s.connection, false⟩, .error (.driver e), [.connectAttempt]⟩ := rfl

/-- `connect` preserves the client invariant. -/
theorem clientInv_connect (drv : Except (List Char) Nat) (s : ClientState)
    (_h : ClientInv s) : ClientInv (connect drv s).state := by
  cases drv with
  | ok c => intro _; simp [connect]
  | error e => intro hc; simp [connect] at hc

/-- `disconnect` preserves the client invariant. -/
theorem clientInv_disconnect (s : ClientState) (h : ClientInv s) :
    ClientInv (disconnect s).state := by
  unfold disconnect
  cases hc : s.connection with
  | some c => intro hh; simp at hh
  | none => simpa [hc] using h

/-- `ensureConnected` preserves the client invariant. -/
theorem clientInv_ensureConnected (drv : Except (List Char) Nat) (s : ClientState)
    (h : ClientInv s) : ClientInv (ensureConnected drv s).state := by
  unfold ensureConnected
  split
  · exact h
  · have h2 := clientInv_connect drv s h
    split
    next s' r t heq => rw [show (connect drv s).state = s' by rw [heq]] at h2; exact h2
    next s' e t heq => rw [show (connect drv s).state = s' by rw [heq]] at h2; exact h2

/-- `query` preserves the client invariant. -/
theorem clientInv_query (drv : Except (List Char) Nat)
    (exec : Nat → Except (List Char) (List (List JSVal) × List (List Char)))
    (sql : List Char) (s : ClientState) (h : ClientInv s) :
    ClientInv (query drv exec sql s).state := by
  unfold query
  have h2 := clientInv_ensureConnected drv s h
  split
  next s1 e t heq => rw [show (ensureConnected drv s).state = s1 by rw [heq]] at h2; exact h2
  next s1 u t heq =>
    rw [show (ensureConnected drv s).state = s1 by rw [heq]] at h2
    split
    · exact h2
    · split <;> exact h2

/-- In any state satisfying the invariant, `query` never fails with the
null-access `TypeError`. -/
theorem query_no_nullAccess (drv : Except (List Char) Nat)
    (exec : Nat → Except (List Char) (List (List JSVal) × List (List Char)))
    (sql : List Char) (s : ClientState) (h : ClientInv s) :
    (query drv exec sql s).result ≠ .error .nullAccess := by
  unfold query ensureConnected
  cases hic : s.isConnected with
  | true =>
    obtain ⟨c, hc⟩ : ∃ c, s.connection = some c := by
      cases hn : s.connection with
      | none => exact absurd hn (h hic)
      | some c => exact ⟨c, rfl⟩
    cases hex : exec c <;> simp [hic, hc, hex]
  | false =>
    cases drv with
    | error e => simp [hic, connect]
    | ok c =>
      cases hex : exec c <;> simp [hic, connect, hex]

/-- Every reachable client state satisfies the invariant. -/
theorem reachable_clientInv {s : ClientState} (h : Reachable s) : ClientInv s := by
  induction h with
  | init => intro hc; simp [freshClient] at hc
  | connectStep drv _ ih => exact clientInv_connect _ _ ih
  | disconnectStep _ ih => exact clientInv_disconnect _ ih
  | queryStep drv exec sql _ ih => exact clientInv_query _ _ _ _ ih

/-! ## Claim theorems for the client and the tool adapter -/

/-- C3: with an absent or empty data sequence, `bulkImport` fails with the
validation error, performs no driver operation at all (empty trace — no
connect, no schema lookup, no insert) and leaves the client state
unchanged. -/
theorem bulkImport_empty_validation (drv : Except (List Char) Nat)
    (exec : Nat → Except (List Char) (List (List JSVal) × List (List Char)))
    (ins : Nat → Except (List Char) Nat) (database tbl : List Char)
    (data : Option (List (List JSVal))) (s : ClientState)
    (h : data = none ∨ data = some []) :
    bulkImport drv exec ins database tbl data s =
      ⟨s, .error (.validation "没有提供数据进行导入".data), []⟩ := by
  unfold bulkImport
  rw [if_pos h]

/-- Witness for C3 at a concrete empty input. -/
theorem bulkImport_empty_validation_witness :
    ((none : Option (List (List JSVal))) = none ∨
      (none : Option (List (List JSVal))) = some []) ∧
    bulkImport (.ok 0) (fun _ => .ok ([], [])) (fun _ => .ok 0)
      "testdb".data "t".data none freshClient =
      ⟨freshClient, .error (.validation "没有提供数据进行导入".data), []⟩ :=
  ⟨Or.inl rfl,
   bulkImport_empty_validation _ _ _ _ _ _ _ (Or.inl rfl)⟩

/-- C5: a failed `connect` rethrows the driver error unchanged after a
single connection attempt, leaves the connected flag `false`, and a
subsequent `_ensureConnected` attempts to connect again. -/
theorem connect_failure_spec (e : List Char) (s : ClientState)
    (drv2 : Except (List Char) Nat) :
    connect (.error e) s =
      ⟨⟨s.connection, false⟩, .error (.driver e), [.connectAttempt]⟩ ∧
    (connect (.error e) s).state.isConnected = false ∧
    (ensureConnected drv2 (connect (.error e) s).state).trace = [.connectAttempt] := by
  refine ⟨rfl, rfl, ?_⟩
  cases drv2 with
  | ok c => simp [ensureConnected, connect]
  | error e2 => simp [ensureConnected, connect]

/-- C6: on a freshly constructed client, `query` first connects and then
executes, returning rows plus field metadata on success; if the connection
attempt fails it fails with that driver error; it never fails with a
null-access `TypeError`. -/
theorem query_fresh_spec (sql e : List Char) (c : Nat)
    (rows : List (List JSVal)) (fields : List (List Char))
    (drv : Except (List Char) Nat)
    (exec : Nat → Except (List Char) (List (List JSVal) × List (List Char))) :
    query (.error e) exec sql freshClient =
      ⟨freshClient, .error (.driver e), [.connectAttempt]⟩ ∧
    query (.ok c) (fun _ => .ok (rows, fields)) sql freshClient =
      ⟨⟨some c, true⟩, .ok ⟨rows, fields⟩, [.connectAttempt, .execute sql]⟩ ∧
    (query drv exec sql freshClient).result ≠ .error .nullAccess := by
  refine ⟨rfl, rfl, ?_⟩
  exact query_no_nullAccess drv exec sql freshClient
    (fun hc => by simp [freshClient] at hc)

/-- C7: `disconnect` on a client with no open connection is a no-op that
does not raise; after any call to `disconnect` (on a state satisfying the
client invariant) the handle is gone and the flag is `false`, and a second
`disconnect` in a row is again a non-raising no-op. -/
theorem disconnect_idempotent (s : ClientState) (h : ClientInv s) :
    (s.connection = none → disconnect s = ⟨s, .ok (), []⟩) ∧
    (disconnect s).state = ⟨none, false⟩ ∧
    (disconnect s).result = .ok () ∧
    disconnect (disconnect s).state = ⟨⟨none, false⟩, .ok (), []⟩ := by
  unfold disconnect
  cases hc : s.connection with
  | some c =>
    refine ⟨fun hn => by simp [hc] at hn, rfl, rfl, rfl⟩
  | none =>
    have hflag : s.isConnected = false := by
      by_contra hne
      exact h (Bool.not_eq_false _ ▸ hne) hc
    have hs : s = ⟨none, false⟩ := by
      cases s with
      | mk conn fl => simp at hc hflag; rw [hc, hflag]
    refine ⟨fun _ => rfl, ?_, rfl, ?_⟩ <;> simp [hs]

/-- Witness for C7 on the fresh (disconnected) client state. -/
theorem disconnect_idempotent_witness :
    ClientInv freshClient ∧
    ((freshClient.connection = none → disconnect freshClient = ⟨freshClient, .ok (), []⟩) ∧
     (disconnect freshClient).state = ⟨none, false⟩ ∧
     (disconnect freshClient).result = .ok () ∧
     disconnect (disconnect freshClient).state = ⟨⟨none, false⟩, .ok (), []⟩) :=
  ⟨fun hc => by simp [freshClient] at hc,
   disconnect_idempotent freshClient (fun hc => by simp [freshClient] at hc)⟩

/-- C10: every state reached by a finite sequence of `connect`,
`disconnect` and `query` operations (each succeeding or failing) has a
live handle whenever its connected flag is `true`, so `query`'s execute
step never acts on a `null` handle. -/
theorem reachable_invariant (s : ClientState) (drv : Except (List Char) Nat)
    (exec : Nat → Except (List Char) (List (List JSVal) × List (List Char)))
    (sql : List Char) (h : Reachable s) :
    (s.isConnected = true → s.connection ≠ none) ∧
    (query drv exec sql s).result ≠ .error .nullAccess :=
  ⟨reachable_clientInv h,
   query_no_nullAccess drv exec sql s (reachable_clientInv h)⟩

/-- Witness for C10 at the initial state. -/
theorem reachable_invariant_witness :
    Reachable freshClient ∧
    ((freshClient.isConnected = true → freshClient.connection ≠ none) ∧
     (query (.ok 3) (fun _ => .ok ([], [])) "SELECT 1".data freshClient).result ≠
       .error .nullAccess) :=
  ⟨Reachable.init,
   reachable_invariant freshClient (.ok 3) (fun _ => .ok ([], [])) "SELECT 1".data
     Reachable.init⟩

/-- C4: the tool adapter `dorisQuery` always returns a structured result:
a failure result carrying the error message when configuration load,
connect or query fails, and a success result carrying the rows and a
row-count message when they all succeed. -/
theorem dorisQuery_spec (e : List Char) (c : Nat)
    (rows : List (List JSVal)) (fields : List (List Char))
    (params : QueryParams) (configRes : Except (List Char) Unit)
    (drv : Except (List Char) Nat)
    (exec : Nat → Except (List Char) (List (List JSVal) × List (List Char))) :
    dorisQuery (.error e) drv exec params =
      .failure e ("查询失败: ".data ++ e) ∧
    dorisQuery (.ok ()) (.error e) exec params =
      .failure e ("查询失败: ".data ++ e) ∧
    dorisQuery (.ok ()) (.ok c) (fun _ => .error e) params =
      .failure e ("查询失败: ".data ++ e) ∧
    dorisQuery (.ok ()) (.ok c) (fun _ => .ok (rows, fields)) params =
      .success rows ("查询成功，返回 ".data ++ (toString rows.length).data ++ " 条记录".data) ∧
    ((∃ data msg, dorisQuery configRes drv exec params = .success data msg) ∨
     (∃ err msg, dorisQuery configRes drv exec params = .failure err msg)) := by
  refine ⟨rfl, rfl, rfl, rfl, ?_⟩
  cases hres : dorisQuery configRes drv exec params with
  | success data msg => exact Or.inl ⟨data, msg, rfl⟩
  | failure err msg => exact Or.inr ⟨err, msg, rfl⟩

/-! ## Helper lemmas on `splitOnChar` and `joinD` -/

theorem splitOnChar_ne_nil (sep : Char) (l : List Char) : splitOnChar sep l ≠ [] := by
  cases l with
  | nil => simp [splitOnChar]
  | cons c cs =>
    unfold splitOnChar
    split
    · simp
    · split <;> simp

theorem splitOnChar_not_mem (sep : Char) (l : List Char) (h : sep ∉ l) :
    splitOnChar sep l = [l] := by
  induction l with
  | nil => rfl
  | cons c cs ih =>
    have hc : c ≠ sep := fun hcc => h (hcc ▸ List.mem_cons_self c cs)
    have hcs : sep ∉ cs := fun hm => h (List.mem_cons_of_mem c hm)
    unfold splitOnChar
    rw [ih hcs]
    simp [hc]

theorem splitOnChar_cons (sep c : Char) (rest : List Char) :
    splitOnChar sep (c :: rest) =
      match splitOnChar sep rest with
      | [] => [[]]
      | h :: t => if c = sep then [] :: h :: t else (c :: h) :: t := rfl

theorem splitOnChar_append (sep : Char) (a b : List Char) (h : sep ∉ a) :
    splitOnChar sep (a ++ sep :: b) = a :: splitOnChar sep b := by
  induction a with
  | nil =>
    cases hsb : splitOnChar sep b with
    | nil => exact absurd hsb (splitOnChar_ne_nil sep b)
    | cons x t => simp [splitOnChar, hsb]
  | cons c a2 ih =>
    have hc : c ≠ sep := fun hcc => h (hcc ▸ List.mem_cons_self c a2)
    have ha2 : sep ∉ a2 := fun hm => h (List.mem_cons_of_mem c hm)
    rw [List.cons_append, splitOnChar_cons, ih ha2]
    simp [hc]

theorem mem_joinD {c : Char} (d : Char) (ls : List (List Char)) (h : c ∈ joinD d ls) :
    c = d ∨ ∃ l ∈ ls, c ∈ l := by
  induction ls with
  | nil => simp [joinD] at h
  | cons l ls ih =>
    cases ls with
    | nil =>
      simp only [joinD] at h
      exact Or.inr ⟨l, List.mem_cons_self _ _, h⟩
    | cons l2 ls2 =>
      simp only [joinD, List.mem_append, List.mem_cons] at h
      rcases h with h | h | h
      · exact Or.inr ⟨l, List.mem_cons_self _ _, h⟩
      · exact Or.inl h
      · rcases ih h with h2 | ⟨l3, hl3, hc3⟩
        · exact Or.inl h2
        · exact Or.inr ⟨l3, List.mem_cons_of_mem _ hl3, hc3⟩

theorem splitOnChar_joinD (sep : Char) (cells : List (List Char))
    (hne : cells ≠ []) (h : ∀ l ∈ cells, sep ∉ l) :
    splitOnChar sep (joinD sep cells) = cells := by
  induction cells with
  | nil => exact absurd rfl hne
  | cons l ls ih =>
    cases ls with
    | nil => exact splitOnChar_not_mem sep l (h l (List.mem_cons_self _ _))
    | cons l2 ls2 =>
      have h1 : sep ∉ l := h l (List.mem_cons_self _ _)
      have := ih (by simp) (fun x hx => h x (List.mem_cons_of_mem _ hx))
      simp only [joinD]
      rw [splitOnChar_append sep l _ h1, this]

/-! ## Claim theorems for `parseArgs` -/

/-- C8 (counterexample part): `parseArgs(["--a=b=c"])` binds `a` to `"b"`,
not to the full value `"b=c"` after the first `=`. -/
theorem parseArgs_eq_in_value_cex :
    parseArgs ["--a=b=c".data] = [("a".data, .str "b".data)] ∧
    ArgVal.str "b".data ≠ ArgVal.str "b=c".data := by
  exact ⟨by decide, by decide⟩

/-- C8 (amended): `parseArgs(["--a=1", "--b", "2", "-c"])` yields
`{a: "1", b: "2", c: true}`; and in general (as transitions of the
argument fold): a `--key=value` token whose key and value contain no `=`
binds key to value; a `--key` or `-k` token binds its key to `true` and
makes it the pending key; a pending non-empty key captures the next
non-flag token as its string value; without a pending key a non-flag
token is ignored. -/
theorem parseArgs_spec (k v body x : List Char)
    (m : List (List Char × ArgVal)) (ck : Option (List Char))
    (rest : List (List Char))
    (hk : '=' ∉ k) (hv : '=' ∉ v) (hkne : k ≠ [])
    (hb : body.head? ≠ some '-') (hx : x.head? ≠ some '-') :
    parseArgs ["--a=1".data, "--b".data, "2".data, "-c".data] =
      [("a".data, .str "1".data), ("b".data, .str "2".data), ("c".data, .boolTrue)] ∧
    List.foldl parseArgsStep (m, ck) (('-' :: '-' :: (k ++ '=' :: v)) :: rest) =
      List.foldl parseArgsStep (setKey m k (.str v), none) rest ∧
    List.foldl parseArgsStep (m, ck) (('-' :: '-' :: k) :: rest) =
      List.foldl parseArgsStep (setKey m k .boolTrue, some k) rest ∧
    List.foldl parseArgsStep (m, ck) (('-' :: body) :: rest) =
      List.foldl parseArgsStep (setKey m body .boolTrue, some body) rest ∧
    List.foldl parseArgsStep (m, some k) (x :: rest) =
      List.foldl parseArgsStep (setKey m k (.str x), none) rest ∧
    List.foldl parseArgsStep (m, none) (x :: rest) =
      List.foldl parseArgsStep (m, none) rest := by
  have hsplit : splitOnChar '=' (k ++ '=' :: v) = [k, v] := by
    rw [splitOnChar_append '=' k v hk, splitOnChar_not_mem '=' v hv]
  have hxtake2 : x.take 2 ≠ ['-', '-'] := by
    cases x with
    | nil => simp
    | cons c cs =>
      intro hc
      simp [List.take] at hc
      exact hx (by simp [hc.1])
  have hxtake1 : x.take 1 ≠ ['-'] := by
    cases x with
    | nil => simp
    | cons c cs =>
      intro hc
      simp [List.take] at hc
      exact hx (by simp [hc])
  have hbtake : ('-' :: body).take 2 ≠ ['-', '-'] := by
    cases body with
    | nil => simp
    | cons c cs =>
      intro hc
      simp [List.take] at hc
      exact hb (by simp [hc])
  refine ⟨by decide, ?_, ?_, ?_, ?_, ?_⟩
  · rw [List.foldl_cons]
    have : parseArgsStep (m, ck) ('-' :: '-' :: (k ++ '=' :: v)) =
        (setKey m k (.str v), none) := by
      unfold parseArgsStep
      simp [hsplit]
    rw [this]
  · rw [List.foldl_cons]
    have : parseArgsStep (m, ck) ('-' :: '-' :: k) = (setKey m k .boolTrue, some k) := by
      unfold parseArgsStep
      simp [splitOnChar_not_mem '=' k hk]
    rw [this]
  · rw [List.foldl_cons]
    have : parseArgsStep (m, ck) ('-' :: body) =
        (setKey m body .boolTrue, some body) := by
      cases body with
      | nil => rfl
      | cons c cs =>
        have hc : c ≠ '-' := by simpa using hb
        unfold parseArgsStep
        simp [hc]
    rw [this]
  · rw [List.foldl_cons]
    have : parseArgsStep (m, some k) x = (setKey m k (.str x), none) := by
      unfold parseArgsStep
      simp [hxtake2, hxtake1, hkne]
    rw [this]
  · rw [List.foldl_cons]
    have : parseArgsStep (m, none) x = (m, none) := by
      unfold parseArgsStep
      simp [hxtake2, hxtake1]
    rw [this]

/-- Witness for C8 at concrete tokens. -/
theorem parseArgs_spec_witness :
    ('=' ∉ "a".data ∧ '=' ∉ "1".data ∧ "a".data ≠ [] ∧
     ("c".data).head? ≠ some '-' ∧ ("2".data).head? ≠ some '-') ∧
    (parseArgs ["--a=1".data, "--b".data, "2".data, "-c".data] =
      [("a".data, .str "1".data), ("b".data, .str "2".data), ("c".data, .boolTrue)] ∧
    List.foldl parseArgsStep ([], none) (('-' :: '-' :: ("a".data ++ '=' :: "1".data)) :: []) =
      List.foldl parseArgsStep (setKey [] "a".data (.str "1".data), none) [] ∧
    List.foldl parseArgsStep ([], none) (('-' :: '-' :: "a".data) :: []) =
      List.foldl parseArgsStep (setKey [] "a".data .boolTrue, some "a".data) [] ∧
    List.foldl parseArgsStep ([], none) (('-' :: "c".data) :: []) =
      List.foldl parseArgsStep (setKey [] "c".data .boolTrue, some "c".data) [] ∧
    List.foldl parseArgsStep ([], some "a".data) ("2".data :: []) =
      List.foldl parseArgsStep (setKey [] "a".data (.str "2".data), none) [] ∧
    List.foldl parseArgsStep ([], none) ("2".data :: []) =
      List.foldl parseArgsStep ([], none) []) :=
  ⟨⟨by decide, by decide, by decide, by decide, by decide⟩,
   parseArgs_spec "a".data "1".data "c".data "2".data [] none []
     (by decide) (by decide) (by decide) (by decide) (by decide)⟩

/-! ## Helper lemmas for the reference CSV splitter -/

theorem refSplitAux_cons_uq (d c : Char) (cs cell : List Char) (row : List (List Char)) :
    refSplitAux d false (c :: cs) cell row =
      if c = '"' && cell.isEmpty then refSplitAux d true cs cell row
      else if c = d then refSplitAux d false cs [] (row ++ [cell])
      else if c = '\n' then (row ++ [cell]) :: refSplitAux d false cs [] []
      else refSplitAux d false cs (cell ++ [c]) row := rfl

theorem refSplitAux_cons_q (d c : Char) (cs cell : List Char) (row : List (List Char)) :
    refSplitAux d true (c :: cs) cell row =
      if c = '"' then
        match cs with
        | [] => refSplitAux d false [] cell row
        | c2 :: cs2 =>
          if c2 = '"' then refSplitAux d true cs2 (cell ++ ['"']) row
          else refSplitAux d false (c2 :: cs2) cell row
      else refSplitAux d true cs (cell ++ [c]) row := by
  cases cs <;> rfl

/-- Scanning plain cell content in unquoted mode accumulates it. -/
theorem refSplitAux_scan_unquoted (d : Char) (cs : List Char)
    (h : ∀ c ∈ cs, c ≠ d ∧ c ≠ '"' ∧ c ≠ '\n') (cell : List Char)
    (row : List (List Char)) (rest : List Char) :
    refSplitAux d false (cs ++ rest) cell row =
      refSplitAux d false rest (cell ++ cs) row := by
  induction cs generalizing cell with
  | nil => simp
  | cons c cs2 ih =>
    obtain ⟨hcd, hcq, hcn⟩ := h c (List.mem_cons_self _ _)
    rw [List.cons_append, refSplitAux_cons_uq,
      if_neg (by simp [hcq] : ¬((decide (c = '"') && cell.isEmpty) = true)),
      if_neg hcd, if_neg hcn]
    rw [ih (fun x hx => h x (List.mem_cons_of_mem _ hx)) (cell ++ [c])]
    simp

/-- Scanning escaped cell content in quoted mode up to the closing quote
accumulates the unescaped content and returns to unquoted mode. -/
theorem refSplitAux_scan_quoted (d : Char) (cs cell : List Char)
    (row : List (List Char)) (rest : List Char) (hrest : rest.head? ≠ some '"') :
    refSplitAux d true (escapeQuotes cs ++ '"' :: rest) cell row =
      refSplitAux d false rest (cell ++ cs) row := by
  induction cs generalizing cell with
  | nil =>
    rw [show escapeQuotes [] ++ '"' :: rest = '"' :: rest from rfl, refSplitAux_cons_q]
    rw [if_pos rfl]
    cases rest with
    | nil => simp
    | cons r rs =>
      have hr : r ≠ '"' := by simpa using hrest
      simp [hr]
  | cons c cs2 ih =>
    by_cases hc : c = '"'
    · subst hc
      rw [show escapeQuotes ('"' :: cs2) = '"' :: '"' :: escapeQuotes cs2 from by
        simp [escapeQuotes]]
      rw [List.cons_append, refSplitAux_cons_q, if_pos rfl]
      rw [show ('"' :: escapeQuotes cs2) ++ '"' :: rest =
        '"' :: (escapeQuotes cs2 ++ '"' :: rest) from rfl]
      rw [show (match ('"' :: (escapeQuotes cs2 ++ '"' :: rest) : List Char) with
        | [] => refSplitAux d false [] cell row
        | c2 :: cs3 =>
          if c2 = '"' then refSplitAux d true cs3 (cell ++ ['"']) row
          else refSplitAux d false (c2 :: cs3) cell row) =
        refSplitAux d true (escapeQuotes cs2 ++ '"' :: rest) (cell ++ ['"']) row from by
        simp]
      rw [ih (cell ++ ['"'])]
      simp
    · rw [show escapeQuotes (c :: cs2) = c :: escapeQuotes cs2 from by
        simp [escapeQuotes, hc]]
      rw [List.cons_append, refSplitAux_cons_q, if_neg hc]
      rw [ih (cell ++ [c])]
      simp

/-- The `needsQuote` test is exhaustive: a cell that does not need quoting
contains no delimiter, quote or newline character. -/
theorem needsQuote_false_spec (d : Char) (s : List Char)
    (h : needsQuote d s = false) : ∀ c ∈ s, c ≠ d ∧ c ≠ '"' ∧ c ≠ '\n' := by
  intro c hc
  simp only [needsQuote, Bool.or_eq_false_iff] at h
  obtain ⟨⟨h1, h2⟩, h3⟩ := h
  have m1 : d ∉ s := by simpa using h1
  have m2 : '"' ∉ s := by simpa using h2
  have m3 : '\n' ∉ s := by simpa using h3
  refine ⟨?_, ?_, ?_⟩ <;> rintro rfl
  · exact m1 hc
  · exact m2 hc
  · exact m3 hc

/-- A quote at the start of a fresh cell enters quoted mode. -/
theorem refSplitAux_quote_start (d : Char) (cs : List Char) (row : List (List Char)) :
    refSplitAux d false ('"' :: cs) [] row = refSplitAux d true cs [] row := by
  rw [refSplitAux_cons_uq]
  simp

/-- Processing one emitted cell from the start of a fresh cell leaves the
splitter at the cell boundary with the original content accumulated. -/
theorem refSplitAux_cell (d : Char) (s : List Char) (row : List (List Char))
    (rest : List Char) (hrest : rest.head? ≠ some '"') :
    refSplitAux d false (encodeCell d s ++ rest) [] row =
      refSplitAux d false rest s row := by
  unfold encodeCell
  by_cases hq : needsQuote d s = true
  · rw [if_pos hq]
    rw [show ('"' :: (escapeQuotes s ++ ['"'])) ++ rest =
      '"' :: (escapeQuotes s ++ '"' :: rest) from by simp]
    rw [refSplitAux_quote_start]
    have := refSplitAux_scan_quoted d s [] row rest hrest
    simpa using this
  · rw [if_neg hq]
    have hq2 : needsQuote d s = false := by simpa using hq
    have := refSplitAux_scan_unquoted d s (needsQuote_false_spec d s hq2) [] row rest
    simpa using this

/-- Processing one emitted line (joined encoded cells plus a newline)
flushes exactly those cells as one row. -/
theorem refSplitAux_row (d : Char) (cells rowAcc : List (List Char))
    (rest : List Char) (hd1 : d ≠ '"') (hd2 : d ≠ '\n') (hne : cells ≠ []) :
    refSplitAux d false (joinD d (cells.map (encodeCell d)) ++ '\n' :: rest) [] rowAcc =
      (rowAcc ++ cells) :: refSplitAux d false rest [] [] := by
  induction cells generalizing rowAcc with
  | nil => exact absurd rfl hne
  | cons c cs ih =>
    cases cs with
    | nil =>
      simp only [List.map, joinD]
      rw [refSplitAux_cell d c rowAcc ('\n' :: rest) (by simp)]
      rw [refSplitAux_cons_uq,
        if_neg (by simp : ¬((decide ('\n' = '"') && List.isEmpty c) = true)),
        if_neg (fun hc => hd2 hc.symm),
        if_pos rfl]
    | cons c2 cs2 =>
      rw [show (c :: c2 :: cs2).map (encodeCell d) =
        encodeCell d c :: (c2 :: cs2).map (encodeCell d) from rfl]
      rw [show joinD d (encodeCell d c :: (c2 :: cs2).map (encodeCell d)) =
        encodeCell d c ++ d :: joinD d ((c2 :: cs2).map (encodeCell d)) from rfl]
      rw [List.append_assoc, List.cons_append]
      rw [refSplitAux_cell d c rowAcc _ (by simpa using hd1)]
      rw [refSplitAux_cons_uq,
        if_neg (by simp [hd1] : ¬((decide (d = '"') && List.isEmpty c) = true)),
        if_pos rfl]
      rw [ih (rowAcc ++ [c]) (by simp)]
      simp

/-- Processing the emitted data lines yields exactly the emitted rows. -/
theorem refSplitAux_rows (d : Char) (rowsC : List (List (List Char)))
    (hd1 : d ≠ '"') (hd2 : d ≠ '\n') (hne : ∀ r ∈ rowsC, r ≠ []) :
    refSplitAux d false
      ((rowsC.map fun r => joinD d (r.map (encodeCell d)) ++ ['\n']).flatten) [] [] =
      rowsC := by
  induction rowsC with
  | nil => rfl
  | cons r rs ih =>
    rw [show ((r :: rs).map fun r2 => joinD d (r2.map (encodeCell d)) ++ ['\n']).flatten =
      (joinD d (r.map (encodeCell d)) ++ ['\n']) ++
        ((rs.map fun r2 => joinD d (r2.map (encodeCell d)) ++ ['\n']).flatten) from by
      simp]
    rw [show (joinD d (r.map (encodeCell d)) ++ ['\n']) ++
        ((rs.map fun r2 => joinD d (r2.map (encodeCell d)) ++ ['\n']).flatten) =
      joinD d (r.map (encodeCell d)) ++ '\n' ::
        ((rs.map fun r2 => joinD d (r2.map (encodeCell d)) ++ ['\n']).flatten) from by
      simp]
    rw [refSplitAux_row d r [] _ hd1 hd2 (hne r (List.mem_cons_self _ _))]
    rw [ih (fun x hx => hne x (List.mem_cons_of_mem _ hx))]
    simp

/-- A cell that does not need quoting is emitted verbatim. -/
theorem encodeCell_of_not_needsQuote (d : Char) (s : List Char)
    (h : needsQuote d s = false) : encodeCell d s = s := by
  unfold encodeCell
  rw [if_neg (by simp [h])]

/-- For string-valued cells, the emitted cell string is exactly the
JavaScript string conversion of the value. -/
theorem cellString_str (s : List Char) : cellString (.str s) = jsString (.str s) := by
  cases s <;> simp [cellString, jsFalsy, jsString]

/-- Whether a `JSVal` is a string. -/
def JSVal.isStr : JSVal → Bool
  | .str _ => true
  | _ => false

/-- For string values, `cellString` agrees with `String(v)`. -/
theorem cellString_of_isStr (v : JSVal) (h : v.isStr = true) :
    cellString v = jsString v := by
  cases v with
  | str s => exact cellString_str s
  | _ => simp [JSVal.isStr] at h

/-- Mapping an identity-on-members function leaves a list unchanged. -/
theorem map_eq_self_of_mem {α : Type} (l : List α) (f : α → α)
    (h : ∀ a ∈ l, f a = a) : l.map f = l := by
  rw [List.map_congr_left h]
  simp

/-! ## Claim theorems for the CSV round trip -/

/-- C1 (counterexample part): for the row `{a: 0}` the emitted CSV drops
the value (`0` is falsy, so `item[header] || ''` replaces it by `''`), and
the reference splitter recovers the empty string rather than the
string-converted original cell value `"0"`. -/
theorem exportToCSV_roundtrip_cex :
    refSplit ',' (exportToCSV ',' ["a".data] [[JSVal.num 0]]) = [["a".data], [[]]] ∧
    jsString (JSVal.num 0) = "0".data ∧
    refSplit ',' (exportToCSV ',' ["a".data] [[JSVal.num 0]]) ≠
      [["a".data], [jsString (JSVal.num 0)]] :=
  ⟨by decide, by decide, by decide⟩

/-- C1 (amended): for a non-empty sequence of rows whose cell values are
all strings (aligned with a non-empty header list whose names contain no
delimiter, quote or newline, for a delimiter other than quote or newline),
the reference splitter applied to the `exportToCSV` output recovers the
header row followed by exactly the original string-converted cell values
of every row — including cells containing the delimiter, a double quote
or a newline. -/
theorem exportToCSV_roundtrip (d : Char) (headers : List (List Char))
    (rows : List (List JSVal)) (hd1 : d ≠ '"') (hd2 : d ≠ '\n')
    (hh : headers ≠ []) (hhok : ∀ h ∈ headers, needsQuote d h = false)
    (hrows : rows ≠ []) (hlen : ∀ r ∈ rows, r.length = headers.length)
    (hstr : ∀ r ∈ rows, ∀ v ∈ r, v.isStr = true) :
    refSplit d (exportToCSV d headers rows) =
      headers :: rows.map (fun r => r.map jsString) := by
  unfold exportToCSV refSplit
  rw [if_neg (by simpa using hrows)]
  have hhead : headers.map (encodeCell d) = headers :=
    map_eq_self_of_mem headers _
      (fun h hm => encodeCell_of_not_needsQuote d h (hhok h hm))
  rw [show joinD d headers = joinD d (headers.map (encodeCell d)) from by rw [hhead]]
  rw [show (rows.map fun r => joinD d (r.map fun v => encodeCell d (cellString v)) ++ ['\n']) =
      ((rows.map fun r => r.map cellString).map fun cells =>
        joinD d (cells.map (encodeCell d)) ++ ['\n']) from by
    rw [List.map_map]
    apply List.map_congr_left
    intro r _
    simp [List.map_map, Function.comp_def]]
  rw [refSplitAux_row d headers [] _ hd1 hd2 hh]
  have hne2 : ∀ rc ∈ rows.map fun r => r.map cellString, rc ≠ [] := by
    intro rc hrc
    obtain ⟨r, hr, rfl⟩ := List.mem_map.mp hrc
    have hr1 : r ≠ [] := by
      intro hnil
      apply hh
      apply List.length_eq_zero.mp
      rw [← hlen r hr, hnil]
      rfl
    simpa using hr1
  rw [refSplitAux_rows d (rows.map fun r => r.map cellString) hd1 hd2 hne2]
  have hmap : ∀ r ∈ rows, r.map cellString = r.map jsString := by
    intro r hr
    apply List.map_congr_left
    intro v hv
    exact cellString_of_isStr v (hstr r hr v hv)
  rw [List.map_congr_left hmap]
  simp

/-- Witness for C1: a concrete round trip with cells containing the
delimiter, a double quote and a newline. -/
theorem exportToCSV_roundtrip_witness :
    ((',' : Char) ≠ '"' ∧ (',' : Char) ≠ '\n' ∧
     ["a".data, "b".data] ≠ [] ∧
     (∀ h ∈ ["a".data, "b".data], needsQuote ',' h = false) ∧
     [[JSVal.str "x,y".data, JSVal.str "p\"q".data],
      [JSVal.str "m\nn".data, JSVal.str "z".data]] ≠ [] ∧
     (∀ r ∈ [[JSVal.str "x,y".data, JSVal.str "p\"q".data],
             [JSVal.str "m\nn".data, JSVal.str "z".data]],
        r.length = ["a".data, "b".data].length) ∧
     (∀ r ∈ [[JSVal.str "x,y".data, JSVal.str "p\"q".data],
             [JSVal.str "m\nn".data, JSVal.str "z".data]],
        ∀ v ∈ r, v.isStr = true)) ∧
    refSplit ',' (exportToCSV ',' ["a".data, "b".data]
        [[JSVal.str "x,y".data, JSVal.str "p\"q".data],
         [JSVal.str "m\nn".data, JSVal.str "z".data]]) =
      ["a".data, "b".data] ::
        ([[JSVal.str "x,y".data, JSVal.str "p\"q".data],
          [JSVal.str "m\nn".data, JSVal.str "z".data]].map fun r => r.map jsString) :=
  ⟨⟨by decide, by decide, by decide, by decide, by decide, by decide, by decide⟩,
   exportToCSV_roundtrip ',' ["a".data, "b".data]
     [[JSVal.str "x,y".data, JSVal.str "p\"q".data],
      [JSVal.str "m\nn".data, JSVal.str "z".data]]
     (by decide) (by decide) (by decide) (by decide) (by decide) (by decide) (by decide)⟩

/-! ## Claim theorems for `parseCSV` -/

/-- Splitting a concatenation of terminator-ended lines recovers the lines
plus a final empty segment. -/
theorem splitOnChar_lines (sep : Char) (lines : List (List Char))
    (h : ∀ l ∈ lines, sep ∉ l) :
    splitOnChar sep ((lines.map fun l => l ++ [sep]).flatten) = lines ++ [[]] := by
  induction lines with
  | nil => rfl
  | cons l ls ih =>
    rw [show ((l :: ls).map fun l2 => l2 ++ [sep]).flatten =
      l ++ sep :: ((ls.map fun l2 => l2 ++ [sep]).flatten) from by simp]
    rw [splitOnChar_append sep l _ (h l (List.mem_cons_self _ _))]
    rw [ih (fun x hx => h x (List.mem_cons_of_mem _ hx))]
    rfl

/-- C2 (counterexample part): a cell containing the delimiter is emitted
quoted, but `parseCSV` splits naively at the embedded delimiter and keeps
the quote characters, so the cell is not recovered as a single cell with
the original value. -/
theorem parseCSV_quoted_cell_cex :
    exportToCSV ',' [['h']] [[JSVal.str "a,b".data]] = "h\n\"a,b\"\n".data ∧
    parseCSV ',' (exportToCSV ',' [['h']] [[JSVal.str "a,b".data]]) =
      [["h".data], ["\"a".data, "b\"".data], [[]]] ∧
    ["\"a".data, "b\"".data] ≠ ["a,b".data] :=
  ⟨by decide, by decide, by decide⟩

/-- C2 (amended): `parseCSV` splits on newlines and then on the delimiter
with no quote handling, so it inverts `exportToCSV` only when no emitted
cell required quoting: for rows of string cells containing no delimiter,
quote or newline (and headers free of delimiter and newline), `parseCSV`
of the emitted CSV yields the header row, the original cell values, and a
trailing empty row coming from the final newline. -/
theorem parseCSV_of_exportToCSV (d : Char) (headers : List (List Char))
    (rows : List (List JSVal)) (hd2 : d ≠ '\n')
    (hh : headers ≠ []) (hhok : ∀ h ∈ headers, d ∉ h ∧ '\n' ∉ h)
    (hrows : rows ≠ []) (hlen : ∀ r ∈ rows, r.length = headers.length)
    (hstr : ∀ r ∈ rows, ∀ v ∈ r, v.isStr = true)
    (hcells : ∀ r ∈ rows, ∀ v ∈ r, needsQuote d (jsString v) = false) :
    parseCSV d (exportToCSV d headers rows) =
      headers :: (rows.map (fun r => r.map jsString) ++ [[[]]]) := by
  unfold exportToCSV parseCSV
  rw [if_neg (by simpa using hrows)]
  -- every emitted cell is its plain string value
  have hcell : ∀ r ∈ rows, (r.map fun v => encodeCell d (cellString v)) =
      r.map jsString := by
    intro r hr
    apply List.map_congr_left
    intro v hv
    rw [cellString_of_isStr v (hstr r hr v hv),
      encodeCell_of_not_needsQuote d _ (hcells r hr v hv)]
  rw [List.map_congr_left (fun r hr => by rw [hcell r hr] :
    ∀ r ∈ rows, (joinD d (r.map fun v => encodeCell d (cellString v)) ++ ['\n']) =
      joinD d (r.map jsString) ++ ['\n'])]
  -- the data lines, as terminator-ended lines
  rw [show (rows.map fun r => joinD d (r.map jsString) ++ ['\n']) =
      ((rows.map fun r => joinD d (r.map jsString)).map fun l => l ++ ['\n']) from by
    rw [List.map_map]
    rfl]
  -- split the header line off
  have hnlheader : '\n' ∉ joinD d headers := by
    intro hmem
    rcases mem_joinD d headers hmem with h1 | ⟨l, hl, hc⟩
    · exact hd2 h1.symm
    · exact (hhok l hl).2 hc
  rw [splitOnChar_append '\n' _ _ hnlheader]
  -- split the data lines
  have hnlline : ∀ l ∈ rows.map fun r => joinD d (r.map jsString), '\n' ∉ l := by
    intro l hl
    obtain ⟨r, hr, rfl⟩ := List.mem_map.mp hl
    intro hmem
    rcases mem_joinD d _ hmem with h1 | ⟨cs, hcs, hc⟩
    · exact hd2 h1.symm
    · obtain ⟨v, hv, rfl⟩ := List.mem_map.mp hcs
      exact (needsQuote_false_spec d _ (hcells r hr v hv) '\n' hc).2.2 rfl
  rw [splitOnChar_lines '\n' _ hnlline]
  -- now split each line on the delimiter
  rw [List.map_cons, List.map_append, List.map_map]
  rw [splitOnChar_joinD d headers hh (fun l hl => (hhok l hl).1)]
  have hline : ∀ r ∈ rows,
      ((splitOnChar d) ∘ (fun r2 : List JSVal => joinD d (r2.map jsString))) r =
        r.map jsString := by
    intro r hr
    have hrne : r ≠ [] := by
      intro hnil
      apply hh
      apply List.length_eq_zero.mp
      rw [← hlen r hr, hnil]
      rfl
    have : splitOnChar d (joinD d (r.map jsString)) = r.map jsString := by
      apply splitOnChar_joinD
      · simpa using hrne
      · intro l hl
        obtain ⟨v, hv, rfl⟩ := List.mem_map.mp hl
        intro hmem
        exact (needsQuote_false_spec d _ (hcells r hr v hv) d hmem).1 rfl
    exact this
  rw [List.map_congr_left hline]
  rfl

/-- Witness for C2: a concrete parse of emitted unquoted cells. -/
theorem parseCSV_of_exportToCSV_witness :
    ((',' : Char) ≠ '\n' ∧
     ["a".data, "b".data] ≠ [] ∧
     (∀ h ∈ ["a".data, "b".data], ',' ∉ h ∧ '\n' ∉ h) ∧
     [[JSVal.str "x".data, JSVal.str "y".data]] ≠ [] ∧
     (∀ r ∈ [[JSVal.str "x".data, JSVal.str "y".data]],
        r.length = ["a".data, "b".data].length) ∧
     (∀ r ∈ [[JSVal.str "x".data, JSVal.str "y".data]], ∀ v ∈ r, v.isStr = true) ∧
     (∀ r ∈ [[JSVal.str "x".data, JSVal.str "y".data]], ∀ v ∈ r,
        needsQuote ',' (jsString v) = false)) ∧
    parseCSV ',' (exportToCSV ',' ["a".data, "b".data]
        [[JSVal.str "x".data, JSVal.str "y".data]]) =
      ["a".data, "b".data] ::
        ([[JSVal.str "x".data, JSVal.str "y".data]].map (fun r => r.map jsString) ++
          [[[]]]) :=
  ⟨⟨by decide, by decide, by decide, by decide, by decide, by decide, by decide⟩,
   parseCSV_of_exportToCSV ',' ["a".data, "b".data]
     [[JSVal.str "x".data, JSVal.str "y".data]]
     (by decide) (by decide) (by decide) (by decide) (by decide) (by decide) (by decide)⟩

/-! ## Claim theorems for `formatBytes` -/

/-- `log1024` is the floor of the base-1024 logarithm on the unit range. -/
theorem log1024_bracket (n : Nat) (hpos : 0 < n) (h9 : n < 1024 ^ 9) :
    1024 ^ log1024 n ≤ n ∧ n < 1024 ^ (log1024 n + 1) := by
  unfold log1024
  split_ifs with c9 c8 c7 c6 c5 c4 c3 c2 c1 <;>
    refine ⟨?_, ?_⟩ <;> norm_num at * <;> omega

/-- `log1024` stays inside the unit table on the unit range. -/
theorem log1024_lt_nine (n : Nat) (h9 : n < 1024 ^ 9) : log1024 n < 9 := by
  unfold log1024
  split_ifs <;> omega

/-- Half-up rounding of `num / den` is off by at most half a unit:
`|rounded·den − num| ≤ den / 2` (stated multiplied by 2). -/
theorem roundHalfUp_accuracy (num den : Nat) (hden : 0 < den) :
    ((roundHalfUp num den : Int) * den * 2 - num * 2).natAbs ≤ den := by
  unfold roundHalfUp
  have h := Nat.div_add_mod (2 * num + den) (2 * den)
  have hlt : (2 * num + den) % (2 * den) < 2 * den := Nat.mod_lt _ (by omega)
  have key : (((2 * num + den) / (2 * den) : Nat) : Int) * den * 2 - num * 2 =
      (den : Int) - ((2 * num + den) % (2 * den) : Nat) := by
    have h1 : 2 * (den : Int) * ((2 * num + den) / (2 * den) : Nat) +
        ((2 * num + den) % (2 * den) : Nat) = 2 * num + den := by
      exact_mod_cast h
    linear_combination h1
  rw [key]
  omega

/-- C9: `formatBytes` returns `"0 Bytes"`, `"1 KB"` and `"1.5 KB"` on the
three cited inputs; in general, for a positive byte count in unit range,
the unit index `i` is the base-1024 magnitude (`1024^i ≤ bytes <
1024^(i+1)`), the unit is the `i`-th entry of Bytes…YB, and the printed
numeric value approximates `bytes / 1024^i` to within half of the last
requested decimal. -/
theorem formatBytes_spec (bytes : Nat) (d : Int)
    (hpos : 0 < bytes) (hrange : bytes < 1024 ^ 9) :
    formatBytes 0 = "0 Bytes".data ∧
    formatBytes 1024 = "1 KB".data ∧
    formatBytes 1536 1 = "1.5 KB".data ∧
    1024 ^ log1024 bytes ≤ bytes ∧
    bytes < 1024 ^ (log1024 bytes + 1) ∧
    log1024 bytes < 9 ∧
    formatBytes bytes d =
      renderFixed (roundHalfUp (bytes * 10 ^ d.toNat) (1024 ^ log1024 bytes)) d.toNat ++
        ' ' :: sizes.getD (log1024 bytes) "undefined".data ∧
    ((roundHalfUp (bytes * 10 ^ d.toNat) (1024 ^ log1024 bytes) : Int) *
        ((1024 ^ log1024 bytes : Nat) : Int) * 2 -
        ((bytes * 10 ^ d.toNat : Nat) : Int) * 2).natAbs ≤
      1024 ^ log1024 bytes := by
  obtain ⟨hb1, hb2⟩ := log1024_bracket bytes hpos hrange
  refine ⟨by decide, by decide, by decide, hb1, hb2, log1024_lt_nine bytes hrange, ?_, ?_⟩
  · unfold formatBytes
    rw [if_neg (Nat.pos_iff_ne_zero.mp hpos)]
  · exact roundHalfUp_accuracy (bytes * 10 ^ d.toNat) (1024 ^ log1024 bytes)
      (pow_pos (by norm_num) _)

/-- Witness for C9 at `formatBytes(1536, 1)`. -/
theorem formatBytes_spec_witness :
    (0 < 1536 ∧ 1536 < 1024 ^ 9) ∧
    (formatBytes 0 = "0 Bytes".data ∧
     formatBytes 1024 = "1 KB".data ∧
     formatBytes 1536 1 = "1.5 KB".data ∧
     1024 ^ log1024 1536 ≤ 1536 ∧
     1536 < 1024 ^ (log1024 1536 + 1) ∧
     log1024 1536 < 9 ∧
     formatBytes 1536 1 =
       renderFixed (roundHalfUp (1536 * 10 ^ (1 : Int).toNat) (1024 ^ log1024 1536))
           (1 : Int).toNat ++
         ' ' :: sizes.getD (log1024 1536) "undefined".data ∧
     ((roundHalfUp (1536 * 10 ^ (1 : Int).toNat) (1024 ^ log1024 1536) : Int) *
         ((1024 ^ log1024 1536 : Nat) : Int) * 2 -
         ((1536 * 10 ^ (1 : Int).toNat : Nat) : Int) * 2).natAbs ≤
       1024 ^ log1024 1536) :=
  ⟨⟨by decide, by decide⟩, formatBytes_spec 1536 1 (by decide) (by decide)⟩

end Doris
